import Mathlib

set_option maxRecDepth 40000

/-!
# Verification of `konekielivelho.py`, a TITO bank-statement decoder

This file gives a shallow embedding of `src/konekielivelho.py` (a single-file
Python program that parses fixed-format Finnish TITO bank statements into
payment records) and proves the testable properties stated in its design
specification.

Modelling conventions:

* A decoded input is a `List String` of lines (the result of
  `convert_ascii_alphabets(...).splitlines()`); lines therefore contain no
  newline character, and several theorems carry that as a hypothesis.
* Python slicing `s[a:b]` is `pySlice` (clamping is automatic with
  `drop`/`take`); `str.strip()` is `pyStrip` over the ASCII whitespace
  characters (the file format is ASCII-based; exotic Unicode whitespace is out
  of scope); `str.lstrip('0')` is `pyLstrip0`.
* `int(...)` is `pyInt`, modelling CPython's rule: optional surrounding
  whitespace, optional sign, then a nonempty run of ASCII digits in which a
  single underscore may separate two digits.
* `datetime.strptime(s, '%y%m%d')` is `strptime_yymmdd`, modelling CPython's
  `_strptime`: the format compiles to the regex `\d\d` for `%y`,
  `1[0-2]|0[1-9]|[1-9]` for `%m` and `3[01]|[12]\d|0[1-9]|[1-9]` for `%d`
  (alternatives tried in that order, leftmost match), the match must consume
  the whole string, the two-digit year is resolved with the `<= 68 -> 2000s`
  pivot, and the day is validated against the calendar month.
* The regular expressions of `BankEventType` are embedded directly:
  `re.match` anchors at position 0, `.` matches any character except a
  newline, and `re.IGNORECASE` is modelled by case-folding (ASCII letters
  plus the Scandinavian letters produced by `convert_ascii_alphabets`);
  all literal letters in the patterns are ASCII.
* The Python exceptions that can escape (`IndexError` from the grouping loop,
  `ValueError` from `strptime`/`int`) are modelled with `Option`/`RunResult`:
  `none` / `RunResult.crash` means the run aborts with a traceback.
* File I/O and `csv` quoting are external collaborators per the spec; the
  record sink is modelled as the list of rows (header row first), each row a
  list of field strings.
-/

/-! ## Python string primitives -/

/-- Python slicing `s[a:b]` on a list of characters (out-of-range indices clamp). -/
def pySlice (s : List Char) (a b : Nat) : List Char :=
  (s.drop a).take (b - a)

/-- The ASCII whitespace characters removed by Python's `str.strip()`. -/
def pyIsSpace (c : Char) : Bool :=
  c = ' ' || c = '\t' || c = '\n' || c = '\r' || c = '\x0b' || c = '\x0c'

/-- Python `str.strip()`: drop whitespace from both ends. -/
def pyStrip (s : List Char) : List Char :=
  ((s.dropWhile pyIsSpace).reverse.dropWhile pyIsSpace).reverse

/-- Python `str.lstrip('0')`: drop leading `'0'` characters. -/
def pyLstrip0 (s : List Char) : List Char :=
  s.dropWhile (fun c => c = '0')

/-- `re.sub(r'[,.]', '', s)`: delete every comma and period. -/
def removeSeps (s : List Char) : List Char :=
  s.filter (fun c => !(c = ',' || c = '.'))

/-- Numeric value of an ASCII digit. -/
def digitVal (c : Char) : Nat := c.toNat - '0'.toNat

/-- Value of a digit string read in base 10. -/
def decimalValue (cs : List Char) : Nat :=
  cs.foldl (fun a c => 10 * a + digitVal c) 0

/-- Digit run after the first digit, allowing a single `'_'` between digits
(CPython's integer-literal rule for `int(...)`), accumulating the value. -/
def digitsUGo (acc : Nat) : List Char → Option Nat
  | [] => some acc
  | c :: cs =>
    if c.isDigit then digitsUGo (10 * acc + digitVal c) cs
    else if c = '_' then
      match cs with
      | c2 :: cs2 => if c2.isDigit then digitsUGo (10 * (10 * acc + digitVal c2)) cs2 else none
      | [] => none
    else none

/-- A nonempty run of digits with optional single underscores between digits. -/
def digitsU : List Char → Option Nat
  | [] => none
  | c :: cs => if c.isDigit then digitsUGo (digitVal c) cs else none

/-- Sign handling of Python `int(...)` (after whitespace stripping). -/
def pyIntCore : List Char → Option Int
  | [] => none
  | c :: cs =>
    if c = '+' then (digitsU cs).map (fun n => (n : Int))
    else if c = '-' then (digitsU cs).map (fun n => -(n : Int))
    else (digitsU (c :: cs)).map (fun n => (n : Int))

/-- Python `int(s)` for a string `s`: `some` value, or `none` for `ValueError`. -/
def pyInt (s : List Char) : Option Int :=
  pyIntCore (pyStrip s)

/-- Python `sep.join(fragments)`. -/
def pyJoin (sep : String) : List String → String
  | [] => ""
  | f :: fs => fs.foldl (fun acc s => acc ++ sep ++ s) f

/-! ## Case folding and regex matching for `BankEventType` -/

/-- Case fold used to model `re.IGNORECASE`: upper-case ASCII letters and the
Scandinavian letters introduced by `convert_ascii_alphabets`. -/
def foldChar (c : Char) : Char :=
  if c = 'å' then 'Å' else if c = 'ä' then 'Ä' else if c = 'ö' then 'Ö' else c.toUpper

/-- The case-folded character list of a string. -/
def foldStr (s : String) : List Char :=
  s.toList.map foldChar

/-- Scan for the earliest occurrence of the literal token `t`, skipping
non-newline characters (Python's `.` does not match a newline); return the
remainder after the token.  Taking the earliest occurrence is complete for
the existential matching semantics (`matchSeq_iff` below proves the
equivalence with the declarative reading of the regex). -/
def findToken (t : List Char) : List Char → Option (List Char)
  | [] => if t.isEmpty then some [] else none
  | c :: cs =>
    if t.isPrefixOf (c :: cs) then some ((c :: cs).drop t.length)
    else if c = '\n' then none
    else findToken t cs

/-- `matchSeq [t1, ..., tn] u` decides whether `u` matches the regular
expression `.* t1 .* t2 ... .* tn .*` anchored at the start, where every
`.`-gap is newline-free.  This is the matching core of
`re.match(r'^.*(tok1.*tok2....*tokn).*$', u)` (the trailing `.*$` is always
satisfiable under `re.MULTILINE`). -/
def matchSeq : List (List Char) → List Char → Bool
  | [], _ => true
  | t :: ts, u =>
    match findToken t u with
    | none => false
    | some r => matchSeq ts r

/-! ## `BankEventType` -/

namespace BankEventType

def HEADER : String := "T00"

def TRANSACTION : String := "T10"

def SPECIFICATION : String := "T11"

def BALANCE : String := "T40"

def CUMULATIVE : String := "T50"

/-- `re.match(NOT_INTERESTING_MATCHER, s)` where `NOT_INTERESTING_MATCHER` is
`^.*(PALVELUMAKSU|S.*ST.*LIPAS|ITSEPALVELU).*$` with `re.IGNORECASE`: the
alternation distributes over the enclosing `^.*(...).*$`. -/
def NOT_INTERESTING_MATCHER (s : String) : Bool :=
  matchSeq ["PALVELUMAKSU".toList] (foldStr s)
    || matchSeq [['S'], ['S', 'T'], "LIPAS".toList] (foldStr s)
    || matchSeq ["ITSEPALVELU".toList] (foldStr s)

/-- `string.startswith(BankEventType.TRANSACTION)`. -/
def is_transaction (string : String) : Bool :=
  TRANSACTION.toList.isPrefixOf string.toList

/-- `re.match(DESCRIPTION_MATCHER, string)` where `DESCRIPTION_MATCHER` is
`^T11...00.*$`: the literal `T11`, three non-newline characters, the literal
`00`, then anything (the trailing `.*$` is always satisfiable). -/
def is_description (string : String) : Bool :=
  match string.toList with
  | 'T' :: '1' :: '1' :: c1 :: c2 :: c3 :: '0' :: '0' :: _ =>
    decide (c1 ≠ '\n') && decide (c2 ≠ '\n') && decide (c3 ≠ '\n')
  | _ => false

/-- `not re.match(NOT_INTERESTING_MATCHER, string)`. -/
def is_interesting (string : String) : Bool :=
  !(NOT_INTERESTING_MATCHER string)

end BankEventType

/-! ## `datetime.strptime(s, '%y%m%d')` -/

/-- The `%y` directive: exactly two digits, read as a number. -/
def matchY : List Char → Option (Nat × List Char)
  | a :: b :: rest =>
    if a.isDigit && b.isDigit then some (10 * digitVal a + digitVal b, rest) else none
  | _ => none

/-- The `%m` directive `1[0-2]|0[1-9]|[1-9]`: every alternative's result, in
the order the regex engine tries them. -/
def matchMAlts (cs : List Char) : List (Nat × List Char) :=
  (match cs with
   | a :: c :: rest =>
     if a = '1' && '0' ≤ c && c ≤ '2' then [(10 + digitVal c, rest)] else []
   | _ => []) ++
  (match cs with
   | a :: c :: rest =>
     if a = '0' && '1' ≤ c && c ≤ '9' then [(digitVal c, rest)] else []
   | _ => []) ++
  (match cs with
   | c :: rest => if '1' ≤ c && c ≤ '9' then [(digitVal c, rest)] else []
   | _ => [])

/-- The `%d` directive `3[01]|[12]\d|0[1-9]|[1-9]`: every alternative's
result, in the order the regex engine tries them. -/
def matchDAlts (cs : List Char) : List (Nat × List Char) :=
  (match cs with
   | a :: c :: rest =>
     if a = '3' && (c = '0' || c = '1') then [(30 + digitVal c, rest)] else []
   | _ => []) ++
  (match cs with
   | a :: c :: rest =>
     if (a = '1' || a = '2') && c.isDigit then [(10 * digitVal a + digitVal c, rest)] else []
   | _ => []) ++
  (match cs with
   | a :: c :: rest =>
     if a = '0' && '1' ≤ c && c ≤ '9' then [(digitVal c, rest)] else []
   | _ => []) ++
  (match cs with
   | c :: rest => if '1' ≤ c && c ≤ '9' then [(digitVal c, rest)] else []
   | _ => [])

/-- All month/day continuations after the year, in backtracking preference
order; the regex engine's match is the head of this list. -/
def regexCandidates (cs : List Char) : List (Nat × Nat × List Char) :=
  (matchMAlts cs).filterMap (fun md =>
    ((matchDAlts md.2).head?).map (fun dd => (md.1, dd.1, dd.2)))

/-- CPython's two-digit-year pivot: `00`-`68` are the 2000s, `69`-`99` the 1900s. -/
def pivotYear (y : Nat) : Nat :=
  if y ≤ 68 then 2000 + y else 1900 + y

/-- Gregorian leap-year rule. -/
def isLeap (y : Nat) : Bool :=
  y % 4 = 0 && (y % 100 ≠ 0 || y % 400 = 0)

/-- Days in a month (used by the `datetime` constructor's validation). -/
def daysInMonth (y m : Nat) : Nat :=
  if m = 2 then (if isLeap y then 29 else 28)
  else if m = 4 || m = 6 || m = 9 || m = 11 then 30
  else 31

/-- `datetime.strptime(s, '%y%m%d')`, returning `(year, month, day)` or `none`
for `ValueError`.  The regex engine's preferred match must consume the whole
string ("unconverted data remains" otherwise), and the day must exist in the
resolved year and month. -/
def strptime_yymmdd (cs : List Char) : Option (Nat × Nat × Nat) :=
  match matchY cs with
  | none => none
  | some (y, rest1) =>
    match (regexCandidates rest1).head? with
    | some (m, d, []) =>
      let year := pivotYear y
      if d ≤ daysInMonth year m then some (year, m, d) else none
    | _ => none

/-! ## `Payment` -/

/-- The structured payment record.  `datetime` is the `(year, month, day)`
triple of the parsed date (the Python object carries a zero time-of-day). -/
structure Payment where
  datetime : Nat × Nat × Nat
  amount : Int
  payer : String
  reference : String
  message : String
deriving Repr, DecidableEq

/-- Serialization field order (`Payment.DICT_FIELDS`). -/
def DICT_FIELDS : List String :=
  ["datetime", "amount", "payer", "reference", "message"]

/-- `payment_row[42:48].strip()`. -/
def str_datetime_of (row : String) : List Char :=
  pyStrip (pySlice row.toList 42 48)

/-- `re.sub(r'[,.]', '', payment_row[87:106].strip())`. -/
def str_amount_of (row : String) : List Char :=
  removeSeps (pyStrip (pySlice row.toList 87 106))

/-- `payment_row[108:143].strip()`. -/
def str_payer_of (row : String) : List Char :=
  pyStrip (pySlice row.toList 108 143)

/-- `payment_row[160:179].strip().lstrip('0')`. -/
def str_reference_of (row : String) : List Char :=
  pyLstrip0 (pyStrip (pySlice row.toList 160 179))

/-- The nested `parse_message` helper: an empty fragment for lines of at most
8 characters, otherwise the stripped text after the 8-character field code. -/
def parse_message (msg_string : String) : String :=
  if msg_string.length ≤ 8 then "" else String.mk (pyStrip (msg_string.toList.drop 8))

/-- `Payment.parse_from_list(rows)`: build a payment from a transaction group.
`none` models the `ValueError` (or `IndexError` on an empty list) escaping and
aborting the run. -/
def Payment.parse_from_list (rows : List String) : Option Payment :=
  match rows with
  | [] => none
  | payment_row :: rest =>
    match strptime_yymmdd (str_datetime_of payment_row), pyInt (str_amount_of payment_row) with
    | some ymd, some amt =>
      some { datetime := ymd
             amount := amt
             payer := String.mk (str_payer_of payment_row)
             reference := String.mk (str_reference_of payment_row)
             message :=
               if 1 < (payment_row :: rest).length
               then pyJoin "\n" (rest.map parse_message)
               else "" }
    | _, _ => none

/-! ## `convert_ascii_alphabets` -/

/-- The ISO 646 substitutions.  The source applies six `re.sub` calls in
sequence; since no substituted character is itself a target, this equals one
simultaneous character map. -/
def convert_ascii_alphabets (s : String) : String :=
  String.mk (s.toList.map (fun c =>
    if c = ']' then 'Å'
    else if c = '[' then 'Ä'
    else if c = '\\' then 'Ö'
    else if c = '\x7d' then 'å'
    else if c = '\x7b' then 'ä'
    else if c = '|' then 'ö'
    else c))

/-! ## The grouping scan of `main` -/

/-- The inner lookahead loop of `main`: starting right after a transaction
line, repeatedly advance `j` and append while `is_description(contents[j])`.
`none` models the `IndexError` raised when `j` runs past the last line. -/
def findDescriptions : List String → Option (List String)
  | [] => none
  | line :: rest =>
    if BankEventType.is_description line then
      (findDescriptions rest).map (fun ds => line :: ds)
    else some []

/-- The outer scan of `main`: every interesting transaction line starts a
group of that line and its following description lines; the outer index
continues from where it started.  `none` models an `IndexError` escaping. -/
def collectTransactions : List String → Option (List (List String))
  | [] => some []
  | v :: rest =>
    if BankEventType.is_transaction v && BankEventType.is_interesting v then
      match findDescriptions rest with
      | none => none
      | some ds =>
        match collectTransactions rest with
        | none => none
        | some gs => some ((v :: ds) :: gs)
    else collectTransactions rest

/-- Zero-pad a number to two digits (as `str(datetime)` does for month/day). -/
def pad2 (n : Nat) : String :=
  if n < 10 then "0" ++ toString n else toString n

/-- `str(datetime(year, month, day))`, the value the CSV sink writes. -/
def datetimeStr : Nat × Nat × Nat → String
  | (y, m, d) => toString y ++ "-" ++ pad2 m ++ "-" ++ pad2 d ++ " 00:00:00"

/-- One CSV record for a payment, in `DICT_FIELDS` order (quoting is the
external CSV writer's concern). -/
def paymentRow (p : Payment) : List String :=
  [datetimeStr p.datetime, toString p.amount, p.payer, p.reference, p.message]

/-- Sequential conversion of the groups, as the lazy `map` consumed by the
CSV writer: the first failing group aborts everything. -/
def parseAll : List (List String) → Option (List Payment)
  | [] => some []
  | g :: gs =>
    match Payment.parse_from_list g, parseAll gs with
    | some p, some ps => some (p :: ps)
    | _, _ => none

/-- Observable outcome of `main` on a decoded line list. -/
inductive RunResult where
  | crash : RunResult
  | notice : RunResult
  | wrote : List (List String) → RunResult
deriving Repr, DecidableEq

/-- The output behaviour of `main`: crash on an escaping exception, a printed
notice (and no output file) when no interesting transactions were found,
otherwise the written rows, header first. -/
def runMain (contents : List String) : RunResult :=
  match collectTransactions contents with
  | none => RunResult.crash
  | some [] => RunResult.notice
  | some (g :: gs) =>
    match parseAll (g :: gs) with
    | none => RunResult.crash
    | some ps => RunResult.wrote (DICT_FIELDS :: ps.map paymentRow)

/-! ## Concrete rows used by witnesses and counterexamples -/

/-- A run of spaces. -/
def spaces (n : Nat) : String :=
  String.mk (List.replicate n ' ')

/-- The spec's scenario row: type code `T10`, date field `150401`, amount
field `000000001234`, payer field `JOHN DOE`, reference field `0000123`. -/
def scenarioRow : String :=
  "T10" ++ spaces 39 ++ "150401" ++ spaces 39 ++ spaces 7 ++ "000000001234"
    ++ spaces 2 ++ "JOHN DOE" ++ spaces 27 ++ spaces 17 ++ "0000123" ++ spaces 12

example : scenarioRow.length = 179 := by decide

example : str_datetime_of scenarioRow = ['1', '5', '0', '4', '0', '1'] := by decide

example : strptime_yymmdd (str_datetime_of scenarioRow) = some (2015, 4, 1) := by decide

example : Payment.parse_from_list [scenarioRow] =
    some { datetime := (2015, 4, 1), amount := 1234, payer := "JOHN DOE",
           reference := "123", message := "" } := by decide

/-! ## Declarative semantics of the suppression regex

`SeqContains [t1, ..., tn] u` is the declarative reading of matching the
pattern `.* t1 .* t2 ... .* tn .*` against `u`: the tokens occur in order,
in some decomposition of `u`.  For a newline-free `u` (every line produced
by `splitlines` is newline-free) it coincides with `matchSeq`. -/

/-- Declarative containment of a token sequence, gaps unconstrained. -/
def SeqContains : List (List Char) → List Char → Prop
  | [], _ => True
  | t :: ts, u => ∃ a v, u = a ++ t ++ v ∧ SeqContains ts v

theorem SeqContains_nil (u : List Char) : SeqContains [] u := trivial

theorem SeqContains_mono (ts : List (List Char)) (mid v : List Char)
    (h : SeqContains ts v) : SeqContains ts (mid ++ v) := by
  cases ts with
  | nil => trivial
  | cons t ts =>
    obtain ⟨a, w, rfl, hw⟩ := h
    exact ⟨mid ++ a, w, by simp, hw⟩

theorem findToken_sound {t : List Char} :
    ∀ {u r : List Char}, findToken t u = some r → ∃ a, u = a ++ t ++ r := by
  intro u
  induction u with
  | nil =>
    intro r h
    simp only [findToken] at h
    split at h
    · rename_i ht
      simp only [List.isEmpty_iff] at ht
      cases h
      exact ⟨[], by simp [ht]⟩
    · cases h
  | cons c cs ih =>
    intro r h
    simp only [findToken] at h
    split at h
    · rename_i hpre
      rw [List.isPrefixOf_iff_prefix] at hpre
      obtain ⟨s, hs⟩ := hpre
      cases h
      exact ⟨[], by simp [← hs, List.drop_left]⟩
    · split at h
      · cases h
      · obtain ⟨a, ha⟩ := ih h
        exact ⟨c :: a, by simp [ha]⟩

theorem findToken_suffix {t : List Char} :
    ∀ {u r : List Char}, findToken t u = some r → r <:+ u := by
  intro u
  induction u with
  | nil =>
    intro r h
    simp only [findToken] at h
    split at h
    · cases h; exact List.suffix_refl []
    · cases h
  | cons c cs ih =>
    intro r h
    simp only [findToken] at h
    split at h
    · cases h; exact List.drop_suffix _ _
    · split at h
      · cases h
      · exact (ih h).trans (List.suffix_cons c cs)

theorem findToken_self (t v : List Char) : findToken t (t ++ v) = some v := by
  cases t with
  | nil =>
    cases v with
    | nil => rfl
    | cons c cs => simp [findToken, List.isPrefixOf]
  | cons x t' =>
    have hpre : (x :: t').isPrefixOf (x :: (t' ++ v)) = true := by
      rw [List.isPrefixOf_iff_prefix]
      exact ⟨v, rfl⟩
    have hd : (x :: (t' ++ v)).drop (x :: t').length = v := by
      rw [show x :: (t' ++ v) = (x :: t') ++ v from rfl, List.drop_left]
    show findToken (x :: t') (x :: (t' ++ v)) = some v
    simp only [findToken, List.append_eq, hpre, if_true, hd]

theorem findToken_of_decomp (t : List Char) :
    ∀ (a v : List Char), '\n' ∉ a →
      ∃ mid, findToken t (a ++ t ++ v) = some (mid ++ v) := by
  intro a
  induction a with
  | nil => intro v _; exact ⟨[], by simpa using findToken_self t v⟩
  | cons x a' ih =>
    intro v hnl
    have hx : x ≠ '\n' := fun h => hnl (by simp [h])
    have hrec := ih v (fun h => hnl (List.mem_cons_of_mem x h))
    by_cases hpre : t.isPrefixOf (x :: (a' ++ t ++ v)) = true
    · -- an even earlier occurrence: the remainder still has `v` as a suffix
      rw [List.isPrefixOf_iff_prefix] at hpre
      obtain ⟨s, hs⟩ := hpre
      have hsuffv : v <:+ (x :: (a' ++ t ++ v)) :=
        ⟨x :: (a' ++ t), by simp⟩
      have hsuffs : s <:+ (x :: (a' ++ t ++ v)) := ⟨t, hs⟩
      have hlen : v.length ≤ s.length := by
        have h1 : t.length + s.length = (x :: (a' ++ t ++ v)).length := by
          rw [← hs]; simp
        simp at h1
        omega
      obtain ⟨mid, hmid⟩ := List.suffix_of_suffix_length_le hsuffv hsuffs hlen
      refine ⟨mid, ?_⟩
      have : findToken t (x :: (a' ++ t ++ v)) = some ((x :: (a' ++ t ++ v)).drop t.length) := by
        have hpre' : t.isPrefixOf (x :: (a' ++ t ++ v)) = true := by
          rw [List.isPrefixOf_iff_prefix]; exact ⟨s, hs⟩
        cases t with
        | nil => simp [findToken, List.isPrefixOf]
        | cons y t' => simp only [findToken, hpre', if_true]
      rw [show ((x :: a') ++ t ++ v) = x :: (a' ++ t ++ v) by simp, this, ← hs,
        List.drop_left, hmid]
    · have hnp : ¬ (t.isPrefixOf (x :: (a' ++ t ++ v)) = true) := hpre
      have hstep : findToken t ((x :: a') ++ t ++ v) = findToken t (a' ++ t ++ v) := by
        show findToken t (x :: (a' ++ t ++ v)) = findToken t (a' ++ t ++ v)
        simp only [findToken]
        rw [if_neg hnp, if_neg hx]
      rw [hstep]
      exact hrec

theorem matchSeq_sound :
    ∀ (ts : List (List Char)) (u : List Char), matchSeq ts u = true → SeqContains ts u := by
  intro ts
  induction ts with
  | nil => intro u _; trivial
  | cons t ts ih =>
    intro u h
    simp only [matchSeq] at h
    cases hft : findToken t u with
    | none => rw [hft] at h; cases h
    | some r =>
      rw [hft] at h
      obtain ⟨a, ha⟩ := findToken_sound hft
      exact ⟨a, r, ha, ih r h⟩

theorem matchSeq_complete :
    ∀ (ts : List (List Char)) (u : List Char), '\n' ∉ u → SeqContains ts u →
      matchSeq ts u = true := by
  intro ts
  induction ts with
  | nil => intro u _ _; rfl
  | cons t ts ih =>
    intro u hnl h
    obtain ⟨a, v, rfl, hv⟩ := h
    have hna : '\n' ∉ a := fun hmem => hnl (by simp [hmem])
    obtain ⟨mid, hmid⟩ := findToken_of_decomp t a v hna
    simp only [matchSeq, hmid]
    have hsub : (mid ++ v) <:+ (a ++ t ++ v) := findToken_suffix hmid
    have hnr : '\n' ∉ (mid ++ v) := fun hmem => hnl (hsub.subset hmem)
    exact ih (mid ++ v) hnr (SeqContains_mono ts mid v hv)

theorem matchSeq_iff (ts : List (List Char)) (u : List Char) (hnl : '\n' ∉ u) :
    matchSeq ts u = true ↔ SeqContains ts u :=
  ⟨matchSeq_sound ts u, matchSeq_complete ts u hnl⟩

/-! ## Classifier lemmas -/

theorem is_description_iff (l : String) :
    BankEventType.is_description l = true ↔
      ∃ c1 c2 c3 rest, l.toList = 'T' :: '1' :: '1' :: c1 :: c2 :: c3 :: '0' :: '0' :: rest
        ∧ c1 ≠ '\n' ∧ c2 ≠ '\n' ∧ c3 ≠ '\n' := by
  constructor
  · intro h
    unfold BankEventType.is_description at h
    split at h
    · rename_i c1 c2 c3 rest heq
      simp only [Bool.and_eq_true, decide_eq_true_eq] at h
      exact ⟨c1, c2, c3, rest, heq, h.1.1, h.1.2, h.2⟩
    · cases h
  · rintro ⟨c1, c2, c3, rest, heq, h1, h2, h3⟩
    unfold BankEventType.is_description
    rw [heq]
    simp [h1, h2, h3]

theorem transaction_iff_take (l : String) :
    BankEventType.is_transaction l = true ↔ l.toList.take 3 = ['T', '1', '0'] := by
  unfold BankEventType.is_transaction
  rw [show BankEventType.TRANSACTION.toList = ['T', '1', '0'] from rfl,
    List.isPrefixOf_iff_prefix]
  constructor
  · intro h
    obtain ⟨s, hs⟩ := h
    rw [← hs]
    rfl
  · intro h
    exact ⟨l.toList.drop 3, by rw [← h, List.take_append_drop]⟩

theorem description_not_transaction (l : String)
    (h : BankEventType.is_description l = true) :
    BankEventType.is_transaction l = false := by
  obtain ⟨c1, c2, c3, rest, heq, -, -, -⟩ := (is_description_iff l).mp h
  cases htr : BankEventType.is_transaction l with
  | false => rfl
  | true =>
    exfalso
    have := (transaction_iff_take l).mp htr
    rw [heq] at this
    simp at this

/-! ## Grouping lemmas -/

theorem findDescriptions_all_desc (descs : List String)
    (h : ∀ d ∈ descs, BankEventType.is_description d = true) :
    findDescriptions descs = none := by
  induction descs with
  | nil => rfl
  | cons d ds ih =>
    have hd := h d (by simp)
    simp only [findDescriptions, hd, if_true]
    rw [ih (fun x hx => h x (by simp [hx]))]
    rfl

theorem findDescriptions_mem (rest : List String) :
    ∀ (ds : List String), findDescriptions rest = some ds →
      ∀ l ∈ ds, BankEventType.is_description l = true := by
  induction rest with
  | nil => intro ds h; cases h
  | cons r rs ih =>
    intro ds h
    simp only [findDescriptions] at h
    by_cases hr : BankEventType.is_description r = true
    · rw [if_pos hr] at h
      cases hfd : findDescriptions rs with
      | none => rw [hfd] at h; cases h
      | some ds' =>
        rw [hfd] at h
        simp only [Option.map_some', Option.some_inj] at h
        subst h
        intro l hl
        rcases List.mem_cons.mp hl with rfl | hl'
        · exact hr
        · exact ih ds' hfd l hl'
    · rw [if_neg hr] at h
      simp only [Option.some_inj] at h
      subst h
      intro l hl
      cases hl

theorem findDescriptions_desc_step (d : String) (rest : List String)
    (hd : BankEventType.is_description d = true) :
    findDescriptions (d :: rest) = (findDescriptions rest).map (fun ds => d :: ds) := by
  simp [findDescriptions, hd]

theorem collectTransactions_skip (x : String) (rest : List String)
    (hx : ¬ (BankEventType.is_transaction x && BankEventType.is_interesting x) = true) :
    collectTransactions (x :: rest) = collectTransactions rest := by
  simp [collectTransactions, hx]

theorem collectTransactions_start (v : String) (rest : List String) (ds : List String)
    (gs : List (List String))
    (hv : BankEventType.is_transaction v = true)
    (hi : BankEventType.is_interesting v = true)
    (hfd : findDescriptions rest = some ds)
    (hgs : collectTransactions rest = some gs) :
    collectTransactions (v :: rest) = some ((v :: ds) :: gs) := by
  simp [collectTransactions, hv, hi, hfd, hgs]

theorem collectTransactions_trailing_none (pre : List String) (v : String)
    (descs : List String)
    (hv : BankEventType.is_transaction v = true)
    (hi : BankEventType.is_interesting v = true)
    (hd : ∀ d ∈ descs, BankEventType.is_description d = true) :
    collectTransactions (pre ++ v :: descs) = none := by
  induction pre with
  | nil =>
    rw [List.nil_append]
    simp only [collectTransactions, hv, hi, Bool.and_self, if_true]
    rw [findDescriptions_all_desc descs hd]
  | cons x pre' ih =>
    rw [List.cons_append]
    by_cases hx : (BankEventType.is_transaction x && BankEventType.is_interesting x) = true
    · simp only [collectTransactions, hx, if_true]
      rw [ih]
      cases findDescriptions (pre' ++ v :: descs) <;> rfl
    · rw [collectTransactions_skip x _ hx]
      exact ih

theorem collectTransactions_shape (contents : List String) :
    ∀ (gs : List (List String)), collectTransactions contents = some gs →
      ∀ g ∈ gs, ∃ v ds, g = v :: ds
        ∧ BankEventType.is_transaction v = true
        ∧ BankEventType.is_interesting v = true
        ∧ (∀ l ∈ ds, BankEventType.is_description l = true) := by
  induction contents with
  | nil =>
    intro gs h
    cases h
    intro g hg
    cases hg
  | cons x rest ih =>
    intro gs h
    by_cases hx : (BankEventType.is_transaction x && BankEventType.is_interesting x) = true
    · simp only [collectTransactions, hx, if_true] at h
      cases hfd : findDescriptions rest with
      | none => rw [hfd] at h; cases h
      | some ds =>
        rw [hfd] at h
        cases hgs : collectTransactions rest with
        | none => rw [hgs] at h; cases h
        | some gs' =>
          rw [hgs] at h
          simp only [Option.some_inj] at h
          subst h
          intro g hg
          rcases List.mem_cons.mp hg with rfl | hg'
          · simp only [Bool.and_eq_true] at hx
            exact ⟨x, ds, rfl, hx.1, hx.2, findDescriptions_mem rest ds hfd⟩
          · exact ih gs' hgs g hg'
    · rw [collectTransactions_skip x rest hx] at h
      exact ih gs h

/-! ## `parse_from_list` characterization -/

theorem parse_from_list_cons_def (row : String) (rest : List String) :
    Payment.parse_from_list (row :: rest) =
      match strptime_yymmdd (str_datetime_of row), pyInt (str_amount_of row) with
      | some ymd, some amt =>
        some { datetime := ymd, amount := amt,
               payer := String.mk (str_payer_of row),
               reference := String.mk (str_reference_of row),
               message := if 1 < (row :: rest).length
                          then pyJoin "\n" (rest.map parse_message)
                          else "" }
      | _, _ => none := rfl

theorem parse_from_list_cons_some (row : String) (rest : List String) (p : Payment) :
    Payment.parse_from_list (row :: rest) = some p ↔
      ∃ ymd amt, strptime_yymmdd (str_datetime_of row) = some ymd
        ∧ pyInt (str_amount_of row) = some amt
        ∧ p = { datetime := ymd, amount := amt,
                payer := String.mk (str_payer_of row),
                reference := String.mk (str_reference_of row),
                message := if 1 < (row :: rest).length
                           then pyJoin "\n" (rest.map parse_message)
                           else "" } := by
  rw [parse_from_list_cons_def]
  cases h1 : strptime_yymmdd (str_datetime_of row) with
  | none => simp [h1]
  | some ymd =>
    cases h2 : pyInt (str_amount_of row) with
    | none => simp [h1, h2]
    | some amt =>
      simp only [h1, h2, Option.some_inj]
      constructor
      · intro h; exact ⟨ymd, amt, rfl, rfl, h.symm⟩
      · rintro ⟨ymd', amt', hy, ha, hp⟩
        cases hy; cases ha
        exact hp.symm

/-! ## Integer parsing lemmas -/

theorem digit_not_space (c : Char) (h : c.isDigit = true) : pyIsSpace c = false := by
  cases hsp : pyIsSpace c with
  | false => rfl
  | true =>
    exfalso
    unfold pyIsSpace at hsp
    simp only [Bool.or_eq_true, decide_eq_true_eq] at hsp
    rcases hsp with ((((h' | h') | h') | h') | h') | h' <;> subst h' <;>
      exact absurd h (by decide)

theorem dropWhile_no (p : Char → Bool) (l : List Char) (h : ∀ c ∈ l, p c = false) :
    l.dropWhile p = l := by
  cases l with
  | nil => rfl
  | cons c cs => simp [List.dropWhile_cons, h c (by simp)]

theorem pyStrip_digits (ds : List Char) (h : ∀ c ∈ ds, c.isDigit = true) :
    pyStrip ds = ds := by
  unfold pyStrip
  rw [dropWhile_no _ _ (fun c hc => digit_not_space c (h c hc)),
    dropWhile_no _ _ (fun c hc => digit_not_space c (h c (List.mem_reverse.mp hc))),
    List.reverse_reverse]

theorem digitsUGo_digits (ds : List Char) (h : ∀ c ∈ ds, c.isDigit = true) :
    ∀ acc : Nat, digitsUGo acc ds = some (ds.foldl (fun a c => 10 * a + digitVal c) acc) := by
  induction ds with
  | nil => intro acc; rfl
  | cons c cs ih =>
    intro acc
    have hc := h c (by simp)
    have hstep : digitsUGo acc (c :: cs) = digitsUGo (10 * acc + digitVal c) cs := by
      conv_lhs => rw [digitsUGo.eq_def]
      dsimp only
      rw [if_pos hc]
    rw [hstep, List.foldl_cons]
    exact ih (fun x hx => h x (by simp [hx])) _

theorem pyInt_digits (ds : List Char) (hne : ds ≠ []) (h : ∀ c ∈ ds, c.isDigit = true) :
    pyInt ds = some ((decimalValue ds : Int)) := by
  unfold pyInt
  rw [pyStrip_digits ds h]
  cases ds with
  | nil => exact absurd rfl hne
  | cons c cs =>
    have hc := h c (by simp)
    have hplus : ¬ (c = '+') := by intro e; subst e; exact absurd hc (by decide)
    have hminus : ¬ (c = '-') := by intro e; subst e; exact absurd hc (by decide)
    have hstep : pyIntCore (c :: cs) = (digitsU (c :: cs)).map (fun n => (n : Int)) := by
      conv_lhs => rw [pyIntCore.eq_def]
      dsimp only
      rw [if_neg hplus, if_neg hminus]
    have hstep2 : digitsU (c :: cs) = digitsUGo (digitVal c) cs := by
      conv_lhs => rw [digitsU.eq_def]
      dsimp only
      rw [if_pos hc]
    rw [hstep, hstep2, digitsUGo_digits cs (fun x hx => h x (by simp [hx])) (digitVal c)]
    simp [decimalValue]

/-! ## Date parsing lemmas -/

theorem mem_ite_singleton {α : Type} {p : Prop} [Decidable p] {a b : α}
    (h : a ∈ (if p then [b] else [])) : p ∧ a = b := by
  by_cases hp : p
  · rw [if_pos hp] at h
    exact ⟨hp, by simpa using h⟩
  · rw [if_neg hp] at h
    cases h

theorem mem_matchMAlts (u : List Char) (m : Nat) (r : List Char)
    (h : (m, r) ∈ matchMAlts u) :
    (∃ x, u = x :: r ∧ m = digitVal x) ∨
      (∃ x y, u = x :: y :: r ∧ m = 10 * digitVal x + digitVal y) := by
  rcases u with - | ⟨x, - | ⟨y, u2⟩⟩
  · exact absurd h (List.not_mem_nil _)
  · simp only [matchMAlts, List.nil_append, List.append_nil] at h
    obtain ⟨-, heq⟩ := mem_ite_singleton h
    simp only [Prod.mk.injEq] at heq
    exact Or.inl ⟨x, by rw [heq.2], heq.1⟩
  · simp only [matchMAlts] at h
    rw [List.mem_append, List.mem_append] at h
    rcases h with (h | h) | h
    · obtain ⟨hcond, heq⟩ := mem_ite_singleton h
      simp only [Bool.and_eq_true, decide_eq_true_eq] at hcond
      simp only [Prod.mk.injEq] at heq
      right
      refine ⟨x, y, by rw [heq.2], ?_⟩
      rw [heq.1, hcond.1.1]
      simp [show digitVal '1' = 1 from by decide]
    · obtain ⟨hcond, heq⟩ := mem_ite_singleton h
      simp only [Bool.and_eq_true, decide_eq_true_eq] at hcond
      simp only [Prod.mk.injEq] at heq
      right
      refine ⟨x, y, by rw [heq.2], ?_⟩
      rw [heq.1, hcond.1.1]
      simp [show digitVal '0' = 0 from by decide]
    · obtain ⟨-, heq⟩ := mem_ite_singleton h
      simp only [Prod.mk.injEq] at heq
      exact Or.inl ⟨x, by rw [heq.2], heq.1⟩

theorem mem_matchDAlts (u : List Char) (m : Nat) (r : List Char)
    (h : (m, r) ∈ matchDAlts u) :
    (∃ x, u = x :: r ∧ m = digitVal x) ∨
      (∃ x y, u = x :: y :: r ∧ m = 10 * digitVal x + digitVal y) := by
  rcases u with - | ⟨x, - | ⟨y, u2⟩⟩
  · exact absurd h (List.not_mem_nil _)
  · simp only [matchDAlts, List.nil_append, List.append_nil] at h
    obtain ⟨-, heq⟩ := mem_ite_singleton h
    simp only [Prod.mk.injEq] at heq
    exact Or.inl ⟨x, by rw [heq.2], heq.1⟩
  · simp only [matchDAlts] at h
    rw [List.mem_append, List.mem_append, List.mem_append] at h
    rcases h with ((h | h) | h) | h
    · obtain ⟨hcond, heq⟩ := mem_ite_singleton h
      simp only [Bool.and_eq_true, Bool.or_eq_true, decide_eq_true_eq] at hcond
      simp only [Prod.mk.injEq] at heq
      right
      refine ⟨x, y, by rw [heq.2], ?_⟩
      rw [heq.1, hcond.1]
      simp [show digitVal '3' = 3 from by decide]
    · obtain ⟨-, heq⟩ := mem_ite_singleton h
      simp only [Prod.mk.injEq] at heq
      exact Or.inr ⟨x, y, by rw [heq.2], heq.1⟩
    · obtain ⟨hcond, heq⟩ := mem_ite_singleton h
      simp only [Bool.and_eq_true, decide_eq_true_eq] at hcond
      simp only [Prod.mk.injEq] at heq
      right
      refine ⟨x, y, by rw [heq.2], ?_⟩
      rw [heq.1, hcond.1.1]
      simp [show digitVal '0' = 0 from by decide]
    · obtain ⟨-, heq⟩ := mem_ite_singleton h
      simp only [Prod.mk.injEq] at heq
      exact Or.inl ⟨x, by rw [heq.2], heq.1⟩

/-- On a six-digit date field the regex engine necessarily splits it
two-two-two, so a successful `strptime` returns the year, month and day read
at fixed positions. -/
theorem strptime_six (a b c d e f : Char) (ymd : Nat × Nat × Nat)
    (ha : a.isDigit = true) (hb : b.isDigit = true)
    (hs : strptime_yymmdd [a, b, c, d, e, f] = some ymd) :
    ymd = (pivotYear (10 * digitVal a + digitVal b),
           10 * digitVal c + digitVal d, 10 * digitVal e + digitVal f) := by
  unfold strptime_yymmdd at hs
  have hy : matchY [a, b, c, d, e, f] = some (10 * digitVal a + digitVal b, [c, d, e, f]) := by
    simp [matchY, ha, hb]
  rw [hy] at hs
  dsimp only at hs
  cases hh : (regexCandidates [c, d, e, f]).head? with
  | none => rw [hh] at hs; cases hs
  | some z =>
    rw [hh] at hs
    obtain ⟨zm, zd, zr⟩ := z
    obtain ⟨zs, hzs⟩ := List.head?_eq_some_iff.mp hh
    have hz : (zm, zd, zr) ∈ regexCandidates [c, d, e, f] := by
      rw [hzs]; exact List.mem_cons_self _ zs
    obtain ⟨md, hmem, hres⟩ := List.mem_filterMap.mp hz
    cases hd2 : (matchDAlts md.2).head? with
    | none => rw [hd2] at hres; cases hres
    | some dd =>
      rw [hd2] at hres
      simp only [Option.map_some', Option.some_inj, Prod.mk.injEq] at hres
      obtain ⟨hzm, hzd, hzr⟩ := hres
      obtain ⟨ds2, hds2⟩ := List.head?_eq_some_iff.mp hd2
      have hddmem : dd ∈ matchDAlts md.2 := by
        rw [hds2]; exact List.mem_cons_self _ ds2
      cases zr with
      | cons h0 t0 => dsimp only at hs; cases hs
      | nil =>
        dsimp only at hs
        have hmem' : (md.1, md.2) ∈ matchMAlts [c, d, e, f] := by simpa using hmem
        have hddmem' : (dd.1, dd.2) ∈ matchDAlts md.2 := by simpa using hddmem
        rcases mem_matchMAlts _ md.1 md.2 hmem' with ⟨x, hx, -⟩ | ⟨x, y, hxy, hm2⟩
        · -- one-character month: every day alternative leaves a remainder
          exfalso
          have hmd2 : md.2 = [d, e, f] := by
            simp only [List.cons.injEq] at hx
            exact hx.2.symm
          rw [hmd2] at hddmem'
          rcases mem_matchDAlts _ dd.1 dd.2 hddmem' with ⟨x2, hx2, -⟩ | ⟨x2, y2, hxy2, -⟩
          · rw [hzr] at hx2
            simp at hx2
          · rw [hzr] at hxy2
            simp at hxy2
        · -- two-character month
          have hxc : x = c := by simp only [List.cons.injEq] at hxy; exact hxy.1.symm
          have hyd : y = d := by simp only [List.cons.injEq] at hxy; exact hxy.2.1.symm
          have hmd2 : md.2 = [e, f] := by
            simp only [List.cons.injEq] at hxy
            exact hxy.2.2.symm
          rw [hmd2] at hddmem'
          rcases mem_matchDAlts _ dd.1 dd.2 hddmem' with ⟨x2, hx2, -⟩ | ⟨x2, y2, hxy2, hdval⟩
          · exfalso
            rw [hzr] at hx2
            simp at hx2
          · have hx2e : x2 = e := by
              simp only [List.cons.injEq] at hxy2
              exact hxy2.1.symm
            have hy2f : y2 = f := by
              simp only [List.cons.injEq] at hxy2
              exact hxy2.2.1.symm
            split at hs
            · simp only [Option.some_inj] at hs
              rw [← hs, ← hzm, ← hzd, hm2, hxc, hyd, hdval, hx2e, hy2f]
            · cases hs

/-! ## Sequential conversion and output lemmas -/

theorem parseAll_length (gs : List (List String)) :
    ∀ (ps : List Payment), parseAll gs = some ps → ps.length = gs.length := by
  induction gs with
  | nil => intro ps h; cases h; rfl
  | cons g gs ih =>
    intro ps h
    simp only [parseAll] at h
    cases h1 : Payment.parse_from_list g with
    | none => rw [h1] at h; cases h
    | some p =>
      rw [h1] at h
      cases h2 : parseAll gs with
      | none => rw [h2] at h; cases h
      | some ps' =>
        rw [h2] at h
        dsimp only at h
        cases h
        simp [ih ps' h2]

theorem parseAll_none_of_mem (gs : List (List String)) (g : List String)
    (hg : g ∈ gs) (hnone : Payment.parse_from_list g = none) : parseAll gs = none := by
  induction gs with
  | nil => cases hg
  | cons g0 gs ih =>
    rcases List.mem_cons.mp hg with rfl | hg'
    · simp only [parseAll, hnone]
    · simp only [parseAll]
      rw [ih hg']
      cases Payment.parse_from_list g0 <;> rfl

/-- Spec-side reading of joining message fragments with newline separators
(plain recursion rather than the accumulator fold of `str.join`). -/
def joinNL : List String → String
  | [] => ""
  | [f] => f
  | f :: g :: fs => f ++ "\n" ++ joinNL (g :: fs)

theorem foldl_join_acc (fs : List String) :
    ∀ acc : String, fs.foldl (fun a s => a ++ "\n" ++ s) acc =
      match fs with
      | [] => acc
      | _ :: _ => acc ++ "\n" ++ joinNL fs := by
  induction fs with
  | nil => intro acc; rfl
  | cons s rest ih =>
    intro acc
    simp only [List.foldl_cons]
    rw [ih (acc ++ "\n" ++ s)]
    cases rest with
    | nil => rfl
    | cons s2 rest2 =>
      dsimp only
      simp [joinNL, String.append_assoc]

theorem pyJoin_newline_eq_joinNL (fs : List String) : pyJoin "\n" fs = joinNL fs := by
  cases fs with
  | nil => rfl
  | cons f rest =>
    show rest.foldl (fun a s => a ++ "\n" ++ s) f = joinNL (f :: rest)
    rw [foldl_join_acc rest f]
    cases rest with
    | nil => rfl
    | cons g rest2 => rfl

/-! ## Case folding preserves newline-freeness -/

theorem ofNat_upper_ne_newline (k : Nat) (h1 : 65 ≤ k) (h2 : k ≤ 90) :
    Char.ofNat k ≠ '\n' := by
  interval_cases k <;> decide

theorem toUpper_ne_newline (c : Char) (h : c ≠ '\n') : c.toUpper ≠ '\n' := by
  unfold Char.toUpper
  dsimp only
  split
  · rename_i hcond
    exact ofNat_upper_ne_newline (c.toNat - 32) (by omega) (by omega)
  · exact h

theorem foldChar_ne_newline (c : Char) (h : c ≠ '\n') : foldChar c ≠ '\n' := by
  unfold foldChar
  split_ifs
  · decide
  · decide
  · decide
  · exact toUpper_ne_newline c h

theorem foldStr_no_newline (L : String) (h : '\n' ∉ L.toList) : '\n' ∉ foldStr L := by
  unfold foldStr
  intro hmem
  obtain ⟨c, hc, hfc⟩ := List.mem_map.mp hmem
  exact foldChar_ne_newline c (fun e => h (e ▸ hc)) hfc

/-! ## Spec-side definitions

The following definitions transcribe the specification's wording (rather
than the source) and are compared with the embedded code. -/

/-- Executable substring test over character lists. -/
def isInfixB (t : List Char) : List Char → Bool
  | [] => t.isEmpty
  | c :: cs => t.isPrefixOf (c :: cs) || isInfixB t cs

theorem isInfixB_iff (t : List Char) : ∀ u : List Char, isInfixB t u = true ↔ t <:+: u := by
  intro u
  induction u with
  | nil =>
    simp only [isInfixB, List.isEmpty_iff, List.infix_nil]
  | cons c cs ih =>
    simp only [isInfixB, Bool.or_eq_true, List.isPrefixOf_iff_prefix, ih]
    exact List.infix_cons_iff.symm

/-- The spec's notion of one suppression keyword: case-insensitive
containment of the fixed fragment `frag` as a substring of the line. -/
def containsCI (l frag : String) : Prop :=
  (frag.toList.map foldChar) <:+: (l.toList.map foldChar)

/-- Spec-side reading of the suppression filter: the line contains one of
three fixed keyword fragments, case-insensitively (service-fee marker
`PALVELUMAKSU`, deposit-box marker `SÄÄSTÖLIPAS`, self-service marker
`ITSEPALVELU`). -/
def containsKeywordCI (l : String) : Bool :=
  isInfixB ("PALVELUMAKSU".toList.map foldChar) (l.toList.map foldChar)
    || isInfixB ("SÄÄSTÖLIPAS".toList.map foldChar) (l.toList.map foldChar)
    || isInfixB ("ITSEPALVELU".toList.map foldChar) (l.toList.map foldChar)

theorem containsKeywordCI_iff (l : String) :
    containsKeywordCI l = true ↔
      containsCI l "PALVELUMAKSU" ∨ containsCI l "SÄÄSTÖLIPAS"
        ∨ containsCI l "ITSEPALVELU" := by
  unfold containsKeywordCI containsCI
  simp only [Bool.or_eq_true, isInfixB_iff, or_assoc]

theorem SeqContains_single_iff (t u : List Char) :
    SeqContains [t] u ↔ t <:+: u := by
  constructor
  · rintro ⟨a, v, rfl, -⟩
    exact ⟨a, v, rfl⟩
  · rintro ⟨a, v, hav⟩
    exact ⟨a, v, hav.symm, trivial⟩

/-- The claim's reading of a well-formed date field: exactly six digits,
read as two-digit year, two-digit month and two-digit day, naming a valid
calendar date (with the two-digit-year century pivot). -/
def isWellFormed222 (cs : List Char) : Bool :=
  match cs with
  | [a, b, c, d, e, f] =>
    a.isDigit && b.isDigit && c.isDigit && d.isDigit && e.isDigit && f.isDigit &&
      (let y := pivotYear (10 * digitVal a + digitVal b)
       let m := 10 * digitVal c + digitVal d
       let dd := 10 * digitVal e + digitVal f
       1 ≤ m && m ≤ 12 && 1 ≤ dd && dd ≤ daysInMonth y m)
  | _ => false

/-! ## Further concrete rows for witnesses and counterexamples -/

/-- A transaction row whose date field holds `15041 ` (five digits, then a
space): not of the two-digit-month form, yet accepted by `strptime`. -/
def rowFiveDigitDate : String :=
  "T10" ++ spaces 39 ++ "15041 " ++ spaces 39 ++ spaces 7 ++ "000000001234"
    ++ spaces 2 ++ "JOHN DOE" ++ spaces 27 ++ spaces 17 ++ "0000123" ++ spaces 12

/-- A transaction row whose amount field is not numeric. -/
def rowBadAmount : String :=
  "T10" ++ spaces 39 ++ "150401" ++ spaces 39 ++ spaces 7 ++ "00000000123X"
    ++ spaces 2 ++ "JOHN DOE" ++ spaces 27 ++ spaces 17 ++ "0000123" ++ spaces 12

/-- A transaction row whose reference field is entirely zeros. -/
def rowZeroReference : String :=
  "T10" ++ spaces 39 ++ "150401" ++ spaces 39 ++ spaces 7 ++ "000000001234"
    ++ spaces 2 ++ "JOHN DOE" ++ spaces 27 ++ spaces 17 ++ "0000000000000000000"

/-- A description line that itself contains a suppression keyword. -/
def descKeywordLine : String := "T11abc00 PALVELUMAKSU maksu"

/-- The payment produced by the spec's scenario row. -/
def scenarioPayment : Payment :=
  { datetime := (2015, 4, 1), amount := 1234, payer := "JOHN DOE",
    reference := "123", message := "" }

theorem parse_from_list_cons_none (row : String) (rest : List String) :
    Payment.parse_from_list (row :: rest) = none ↔
      strptime_yymmdd (str_datetime_of row) = none ∨ pyInt (str_amount_of row) = none := by
  rw [parse_from_list_cons_def]
  cases h1 : strptime_yymmdd (str_datetime_of row) with
  | none => simp [h1]
  | some ymd =>
    cases h2 : pyInt (str_amount_of row) with
    | none => simp [h1, h2]
    | some amt => simp [h1, h2]

/-! ## Claim theorems -/

/-- **C1** (code-bug evidence).  The spec requires grouping to stop
gracefully at end of input, with a Transaction line at end of file yielding
a one-line group.  In the code, whenever the decoded input ends with an
interesting transaction line followed only by description lines, the inner
lookahead loop indexes one position past the last line, so the whole scan
aborts with an `IndexError` (modelled as `none`) and no group is emitted. -/
theorem grouper_crashes_on_trailing_transaction (pre : List String) (v : String)
    (descs : List String)
    (hv : BankEventType.is_transaction v = true)
    (hi : BankEventType.is_interesting v = true)
    (hd : ∀ d ∈ descs, BankEventType.is_description d = true) :
    collectTransactions (pre ++ v :: descs) = none :=
  collectTransactions_trailing_none pre v descs hv hi hd

theorem grouper_crashes_on_trailing_transaction_witness :
    collectTransactions ["T10"] = none ∧ runMain ["T10"] = RunResult.crash :=
  ⟨grouper_crashes_on_trailing_transaction [] "T10" [] (by decide) (by decide)
      (by intro d hd; cases hd),
   by decide⟩

/-- **C2** (counterexample).  The line `S-ST-LIPAS` is suppressed by the
code (it matches the wildcard alternative `S.*ST.*LIPAS` of
`NOT_INTERESTING_MATCHER`), although it does not contain any of the three
suppression keywords as a case-insensitive substring, under either spelling
of the deposit-box keyword. -/
theorem suppression_wildcard_counterexample :
    BankEventType.is_interesting "S-ST-LIPAS" = false
      ∧ containsKeywordCI "S-ST-LIPAS" = false
      ∧ isInfixB ("SAASTOLIPAS".toList.map foldChar)
          ("S-ST-LIPAS".toList.map foldChar) = false := by
  decide

/-- **C2** (amended).  For every line, `is_interesting` is false iff the
line contains, case-insensitively, `PALVELUMAKSU` or `ITSEPALVELU` as a
substring, or matches the wildcard pattern `S.*ST.*LIPAS`: an `S`, later an
`ST`, later a `LIPAS`, in order, with arbitrary characters between. -/
theorem is_interesting_characterization (L : String) (hL : '\n' ∉ L.toList) :
    BankEventType.is_interesting L = false ↔
      (containsCI L "PALVELUMAKSU"
        ∨ SeqContains [['S'], ['S', 'T'], ['L', 'I', 'P', 'A', 'S']] (foldStr L)
        ∨ containsCI L "ITSEPALVELU") := by
  have hnl : '\n' ∉ foldStr L := foldStr_no_newline L hL
  have h1 : matchSeq ["PALVELUMAKSU".toList] (foldStr L) = true ↔
      containsCI L "PALVELUMAKSU" := by
    rw [matchSeq_iff _ _ hnl, SeqContains_single_iff]
    unfold containsCI foldStr
    rw [show ("PALVELUMAKSU".toList.map foldChar) = "PALVELUMAKSU".toList from by decide]
  have h2 : matchSeq [['S'], ['S', 'T'], "LIPAS".toList] (foldStr L) = true ↔
      SeqContains [['S'], ['S', 'T'], ['L', 'I', 'P', 'A', 'S']] (foldStr L) :=
    matchSeq_iff _ _ hnl
  have h3 : matchSeq ["ITSEPALVELU".toList] (foldStr L) = true ↔
      containsCI L "ITSEPALVELU" := by
    rw [matchSeq_iff _ _ hnl, SeqContains_single_iff]
    unfold containsCI foldStr
    rw [show ("ITSEPALVELU".toList.map foldChar) = "ITSEPALVELU".toList from by decide]
  have hbool : BankEventType.is_interesting L = false ↔
      BankEventType.NOT_INTERESTING_MATCHER L = true := by
    unfold BankEventType.is_interesting
    cases BankEventType.NOT_INTERESTING_MATCHER L <;> simp
  rw [hbool]
  unfold BankEventType.NOT_INTERESTING_MATCHER
  simp only [Bool.or_eq_true]
  rw [h1, h2, h3]
  tauto

theorem is_interesting_characterization_witness :
    ('\n' ∉ ("ab palvelumaksu" : String).toList)
      ∧ (BankEventType.is_interesting "ab palvelumaksu" = false ↔
          (containsCI "ab palvelumaksu" "PALVELUMAKSU"
            ∨ SeqContains [['S'], ['S', 'T'], ['L', 'I', 'P', 'A', 'S']]
                (foldStr "ab palvelumaksu")
            ∨ containsCI "ab palvelumaksu" "ITSEPALVELU")) :=
  ⟨by decide, is_interesting_characterization "ab palvelumaksu" (by decide)⟩

/-- **C3** (counterexample).  The date field of `rowFiveDigitDate` trims to
the five digits `15041`, which is not a well-formed two-digit-year /
two-digit-month / two-digit-day date, yet building the Payment succeeds
(the underlying `%y%m%d` parser also accepts one-digit months and days). -/
theorem parse_succeeds_on_nonstandard_date :
    isWellFormed222 (str_datetime_of rowFiveDigitDate) = false
      ∧ (Payment.parse_from_list [rowFiveDigitDate]).isSome = true := by
  decide

/-- **C3** (amended).  Building a Payment from a group fails iff the
trimmed date field is rejected by the `%y%m%d` parser (two-digit year, then
one-or-two-digit month and day forming a valid calendar date) or the
separator-stripped amount field is not a valid integer; no partial Payment
is produced, and one failing group aborts the whole run. -/
theorem parse_failure_characterization (row : String) (rest : List String)
    (contents : List String) (gs : List (List String)) :
    (Payment.parse_from_list (row :: rest) = none ↔
      strptime_yymmdd (str_datetime_of row) = none ∨ pyInt (str_amount_of row) = none)
    ∧ (collectTransactions contents = some gs → (row :: rest) ∈ gs →
        Payment.parse_from_list (row :: rest) = none →
        runMain contents = RunResult.crash) := by
  refine ⟨parse_from_list_cons_none row rest, ?_⟩
  intro hc hmem hnone
  unfold runMain
  rw [hc]
  cases gs with
  | nil => cases hmem
  | cons g0 gs' =>
    dsimp only
    rw [parseAll_none_of_mem (g0 :: gs') (row :: rest) hmem hnone]

theorem parse_failure_characterization_witness :
    (Payment.parse_from_list [rowBadAmount] = none ↔
      strptime_yymmdd (str_datetime_of rowBadAmount) = none
        ∨ pyInt (str_amount_of rowBadAmount) = none)
    ∧ runMain [rowBadAmount, "T40"] = RunResult.crash :=
  ⟨(parse_failure_characterization rowBadAmount [] [rowBadAmount, "T40"]
      [[rowBadAmount]]).1,
   (parse_failure_characterization rowBadAmount [] [rowBadAmount, "T40"]
      [[rowBadAmount]]).2 (by decide) (by decide) (by decide)⟩

/-- **C4**.  Every successfully built Payment takes its payer from the
trimmed columns [108,143) of the first line, its reference from the trimmed
columns [160,179) with leading zeros stripped, its date from the trimmed
columns [42,48) read as YYMMDD (with the two-digit-year pivot) whenever that
field is six digits, and its amount as the decimal value of the trimmed
columns [87,106) after comma/period removal whenever that string is all
digits. -/
theorem payment_field_extraction (row : String) (rest : List String) (p : Payment)
    (hp : Payment.parse_from_list (row :: rest) = some p) :
    p.payer = String.mk (str_payer_of row)
    ∧ p.reference = String.mk (str_reference_of row)
    ∧ (∀ a b c d e f : Char,
        str_datetime_of row = [a, b, c, d, e, f] →
        (∀ x ∈ [a, b, c, d, e, f], x.isDigit = true) →
        p.datetime = (pivotYear (10 * digitVal a + digitVal b),
          10 * digitVal c + digitVal d, 10 * digitVal e + digitVal f))
    ∧ (∀ ds : List Char, str_amount_of row = ds → ds ≠ [] →
        (∀ x ∈ ds, x.isDigit = true) → p.amount = (decimalValue ds : Int)) := by
  obtain ⟨ymd, amt, hy, ha, hp'⟩ := (parse_from_list_cons_some row rest p).mp hp
  subst hp'
  refine ⟨rfl, rfl, ?_, ?_⟩
  · intro a b c d e f heq hdig
    show ymd = _
    rw [heq] at hy
    exact strptime_six a b c d e f ymd (hdig a (by simp)) (hdig b (by simp)) hy
  · intro ds heq hne hdig
    show amt = _
    rw [heq, pyInt_digits ds hne hdig] at ha
    exact (Option.some_inj.mp ha).symm

theorem payment_field_extraction_witness :
    Payment.parse_from_list [scenarioRow] = some scenarioPayment
    ∧ scenarioPayment.datetime = (2015, 4, 1)
    ∧ scenarioPayment.amount = 1234
    ∧ scenarioPayment.reference = "123" :=
  have h := payment_field_extraction scenarioRow [] scenarioPayment (by decide)
  ⟨by decide,
   h.2.2.1 '1' '5' '0' '4' '0' '1' (by decide) (by decide),
   h.2.2.2 ['0', '0', '0', '0', '0', '0', '0', '0', '1', '2', '3', '4']
     (by decide) (by decide) (by decide),
   by decide⟩

/-- **C5**.  The message of a Payment is the newline-join of one fragment
per continuation line, in order; a continuation line of at most 8 characters
contributes the empty fragment and a longer one contributes the trimmed text
after offset 8; a one-line group yields the empty message. -/
theorem payment_message_construction (row : String) (rest : List String) (p : Payment)
    (hp : Payment.parse_from_list (row :: rest) = some p) :
    p.message = joinNL (rest.map parse_message)
    ∧ (rest.map parse_message).length = rest.length
    ∧ (rest = [] → p.message = "")
    ∧ ∀ l ∈ rest, (l.length ≤ 8 → parse_message l = "")
        ∧ (8 < l.length → parse_message l = String.mk (pyStrip (l.toList.drop 8))) := by
  obtain ⟨ymd, amt, hy, ha, hp'⟩ := (parse_from_list_cons_some row rest p).mp hp
  subst hp'
  refine ⟨?_, by simp, ?_, ?_⟩
  · show (if 1 < (row :: rest).length then pyJoin "\n" (rest.map parse_message) else "")
      = joinNL (rest.map parse_message)
    cases rest with
    | nil => simp [joinNL]
    | cons r rs =>
      rw [if_pos (by simp), pyJoin_newline_eq_joinNL]
  · intro h
    subst h
    simp
  · intro l hl
    constructor
    · intro hle
      simp [parse_message, hle]
    · intro hgt
      simp [parse_message, Nat.not_le.mpr hgt]

/-- The payment of the three-line witness group for the message property. -/
def messagePayment : Payment :=
  { datetime := (2015, 4, 1), amount := 1234, payer := "JOHN DOE",
    reference := "123", message := "Hello there\n" }

theorem payment_message_construction_witness :
    Payment.parse_from_list [scenarioRow, "T11abc00 Hello there ", "short"]
      = some messagePayment
    ∧ messagePayment.message
        = joinNL (["T11abc00 Hello there ", "short"].map parse_message) :=
  ⟨by decide,
   (payment_message_construction scenarioRow ["T11abc00 Hello there ", "short"]
      messagePayment (by decide)).1⟩

/-- **C6**.  A line is a transaction line iff its first three characters are
`T10`, and a (newline-free) line is a description line iff it starts with
`T11`, then three arbitrary characters, then the literal `00`. -/
theorem classifier_pattern_characterization (L : String) :
    (BankEventType.is_transaction L = true ↔ L.toList.take 3 = ['T', '1', '0'])
    ∧ ('\n' ∉ L.toList →
        (BankEventType.is_description L = true ↔
          ∃ c1 c2 c3 rest, L.toList
            = 'T' :: '1' :: '1' :: c1 :: c2 :: c3 :: '0' :: '0' :: rest)) := by
  refine ⟨transaction_iff_take L, ?_⟩
  intro hnl
  rw [is_description_iff L]
  constructor
  · rintro ⟨c1, c2, c3, rest, heq, -, -, -⟩
    exact ⟨c1, c2, c3, rest, heq⟩
  · rintro ⟨c1, c2, c3, rest, heq⟩
    refine ⟨c1, c2, c3, rest, heq, ?_, ?_, ?_⟩ <;>
      · intro e
        subst e
        apply hnl
        rw [heq]
        simp

theorem classifier_pattern_characterization_witness :
    (BankEventType.is_transaction "T10x" = true ↔
      ("T10x" : String).toList.take 3 = ['T', '1', '0'])
    ∧ (BankEventType.is_description "T11abc00m" = true ↔
        ∃ c1 c2 c3 rest, ("T11abc00m" : String).toList
          = 'T' :: '1' :: '1' :: c1 :: c2 :: c3 :: '0' :: '0' :: rest) :=
  ⟨(classifier_pattern_characterization "T10x").1,
   (classifier_pattern_characterization "T11abc00m").2 (by decide)⟩

/-- **C7**.  If the grouper finds no interesting transaction the run writes
no output rows and only prints a notice; if it finds groups and every group
parses, the output is the header row followed by exactly one row per
Payment. -/
theorem output_file_behaviour (contents : List String) :
    (collectTransactions contents = some [] → runMain contents = RunResult.notice)
    ∧ (∀ gs ps, collectTransactions contents = some gs → gs ≠ [] →
        parseAll gs = some ps →
        runMain contents = RunResult.wrote (DICT_FIELDS :: ps.map paymentRow)
          ∧ (ps.map paymentRow).length = gs.length) := by
  constructor
  · intro h
    unfold runMain
    rw [h]
  · intro gs ps hc hne hp
    unfold runMain
    rw [hc]
    cases gs with
    | nil => exact absurd rfl hne
    | cons g gs' =>
      dsimp only
      rw [hp]
      exact ⟨rfl, by simp [parseAll_length _ _ hp]⟩

theorem output_file_behaviour_witness :
    runMain [] = RunResult.notice
    ∧ runMain ["T10 PALVELUMAKSU"] = RunResult.notice
    ∧ runMain [scenarioRow, "T40"]
        = RunResult.wrote (DICT_FIELDS :: [paymentRow scenarioPayment]) :=
  ⟨(output_file_behaviour []).1 (by decide),
   (output_file_behaviour ["T10 PALVELUMAKSU"]).1 (by decide),
   ((output_file_behaviour [scenarioRow, "T40"]).2 [[scenarioRow]] [scenarioPayment]
      (by decide) (by decide) (by decide)).1⟩

/-- **C8**.  No line is both a transaction line and a description line
(their forced third characters differ), so the lines consumed into a group
as description lines are never counted as new transaction starts when the
outer scan revisits them. -/
theorem transaction_description_exclusive (L : String) :
    (¬ (BankEventType.is_transaction L = true ∧ BankEventType.is_description L = true))
    ∧ (∀ contents gs g l, collectTransactions contents = some gs → g ∈ gs →
        l ∈ g.tail → BankEventType.is_transaction l = false) := by
  constructor
  · rintro ⟨ht, hd⟩
    rw [description_not_transaction L hd] at ht
    cases ht
  · intro contents gs g l hc hg hl
    obtain ⟨v, ds, rfl, -, -, hds⟩ := collectTransactions_shape contents gs hc g hg
    exact description_not_transaction l (hds l (by simpa using hl))

theorem transaction_description_exclusive_witness :
    BankEventType.is_transaction "T11abc00 msg" = false :=
  (transaction_description_exclusive "T11abc00 msg").2
    [scenarioRow, "T11abc00 msg", "T40"] [[scenarioRow, "T11abc00 msg"]]
    [scenarioRow, "T11abc00 msg"] "T11abc00 msg"
    (by decide) (by decide) (by decide)

/-- **C9**.  When the reference field (columns [160,179) of the first line)
trims to a string consisting only of `'0'` characters (possibly empty), the
built Payment's reference is the empty string. -/
theorem all_zero_reference_empty (row : String) (rest : List String) (p : Payment)
    (hz : ∀ c ∈ pyStrip (pySlice row.toList 160 179), c = '0')
    (hp : Payment.parse_from_list (row :: rest) = some p) :
    p.reference = "" := by
  obtain ⟨ymd, amt, -, -, hp'⟩ := (parse_from_list_cons_some row rest p).mp hp
  subst hp'
  show String.mk (str_reference_of row) = ""
  unfold str_reference_of pyLstrip0
  have hdw : (pyStrip (pySlice row.toList 160 179)).dropWhile (fun c => c = '0') = [] := by
    rw [List.dropWhile_eq_nil_iff]
    intro x hx
    simp [hz x hx]
  rw [hdw]

/-- The payment produced by the all-zero-reference witness row. -/
def zeroRefPayment : Payment :=
  { datetime := (2015, 4, 1), amount := 1234, payer := "JOHN DOE",
    reference := "", message := "" }

theorem all_zero_reference_empty_witness :
    (∀ c ∈ pyStrip (pySlice rowZeroReference.toList 160 179), c = '0')
    ∧ zeroRefPayment.reference = "" :=
  ⟨by decide,
   all_zero_reference_empty rowZeroReference [] zeroRefPayment (by decide) (by decide)⟩

/-- **C10**.  The suppression filter applies only to the transaction line
that starts a group: a following line matching the description pattern is
appended to the group — and contributes its message fragment — even if it
contains a suppression keyword (is not "interesting"). -/
theorem description_lines_not_filtered (v d : String) (rest ds : List String)
    (gs' : List (List String))
    (hv : BankEventType.is_transaction v = true)
    (hi : BankEventType.is_interesting v = true)
    (hd : BankEventType.is_description d = true)
    (hfd : findDescriptions rest = some ds)
    (hgs : collectTransactions rest = some gs') :
    collectTransactions (v :: d :: rest) = some ((v :: d :: ds) :: gs')
    ∧ ∀ p, Payment.parse_from_list (v :: d :: ds) = some p →
        p.message = joinNL (parse_message d :: ds.map parse_message) := by
  constructor
  · have hfd2 : findDescriptions (d :: rest) = some (d :: ds) := by
      rw [findDescriptions_desc_step d rest hd, hfd]
      rfl
    have hnt : ¬ (BankEventType.is_transaction d && BankEventType.is_interesting d) = true := by
      simp [description_not_transaction d hd]
    have hgs2 : collectTransactions (d :: rest) = some gs' := by
      rw [collectTransactions_skip d rest hnt]
      exact hgs
    exact collectTransactions_start v (d :: rest) (d :: ds) gs' hv hi hfd2 hgs2
  · intro p hp
    obtain ⟨ymd, amt, -, -, hp'⟩ := (parse_from_list_cons_some v (d :: ds) p).mp hp
    subst hp'
    show (if 1 < (v :: d :: ds).length then pyJoin "\n" ((d :: ds).map parse_message) else "")
      = joinNL (parse_message d :: ds.map parse_message)
    rw [if_pos (by simp), pyJoin_newline_eq_joinNL]
    rfl

theorem description_lines_not_filtered_witness :
    BankEventType.is_interesting descKeywordLine = false
    ∧ collectTransactions [scenarioRow, descKeywordLine, "T40"]
        = some [[scenarioRow, descKeywordLine]] :=
  ⟨by decide,
   (description_lines_not_filtered scenarioRow descKeywordLine ["T40"] [] []
      (by decide) (by decide) (by decide) (by decide) (by decide)).1⟩
